import Mathlib

/-!
Shallow embedding of `src/mod.ts` (a Deno port of currency.js): the
`currency` constructor/parser, the arithmetic operations (`add`,
`subtract`, `multiply`, `divide`, `distribute`), the accessors
(`dollars`, `cents`), and the string machinery (`toString`, `valueOf`,
the standalone `format` function and the grouping regexes).

Numbers: JavaScript numbers are modelled as `Option ℚ`, where `none`
stands for a non-finite double (NaN or ±Infinity) and `some q` for a
finite value taken at its exact rational value.  All arithmetic in the
source lands on integers after `Math.round`, so exact rationals model
the reachable values; binary floating-point rounding noise (which the
source absorbs with `toFixed(4)`) is not modelled.  `Math.round`,
`Number.prototype.toFixed`, `~~` (ToInt32), `%` and string→number
coercion are modelled from their ECMAScript definitions.
-/

/-- A JavaScript number: `none` models a non-finite double (NaN or
±Infinity), `some q` a finite double with exact value `q`. -/
abbrev JNum : Type := Option ℚ

instance {e a : Type} [DecidableEq e] [DecidableEq a] : DecidableEq (Except e a) := fun x y =>
  match x, y with
  | .ok u, .ok v =>
    if h : u = v then isTrue (by rw [h]) else isFalse (fun hh => h (by injection hh))
  | .error u, .error v =>
    if h : u = v then isTrue (by rw [h]) else isFalse (fun hh => h (by injection hh))
  | .ok _, .error _ => isFalse (fun hh => Except.noConfusion hh)
  | .error _, .ok _ => isFalse (fun hh => Except.noConfusion hh)

/-- `Math.round v`: nearest integer, ties rounded toward +∞. -/
def jsRound (q : ℚ) : ℤ := ⌊q + 1 / 2⌋

/-- Rounding used by `Number.prototype.toFixed`: nearest, ties away
from zero (ECMAScript applies ties-up to the absolute value and then
restores the sign). -/
def fixRound (q : ℚ) : ℤ := if 0 ≤ q then ⌊q + 1 / 2⌋ else -⌊-q + 1 / 2⌋

/-- The exact value denoted by `v.toFixed(d)` for a finite `v` (below
the 10^21 threshold where `toFixed` falls back to `ToString`). -/
def toFixedVal (d : Nat) (q : ℚ) : ℚ := ((fixRound (q * 10 ^ d) : ℤ) : ℚ) / 10 ^ d

/-- Truncation toward zero, as used by ECMAScript `ToInt32` (`~~`). -/
def jsTrunc (q : ℚ) : ℤ := if 0 ≤ q then ⌊q⌋ else ⌈q⌉

/-- ECMAScript `ToInt32` on an integral value: reduce mod 2^32 into
`[-2^31, 2^31)`. -/
def toInt32 (z : ℤ) : ℤ :=
  let r := z % (2 ^ 32 : ℤ)
  if r < 2 ^ 31 then r else r - 2 ^ 32

-- Lifted double arithmetic.  Any operation on a non-finite operand is
-- non-finite; a division by zero is non-finite (±Infinity / NaN).
def jAdd : JNum → JNum → JNum
  | some a, some b => some (a + b)
  | _, _ => none

def jSub : JNum → JNum → JNum
  | some a, some b => some (a - b)
  | _, _ => none

def jMul : JNum → JNum → JNum
  | some a, some b => some (a * b)
  | _, _ => none

def jDiv : JNum → JNum → JNum
  | some a, some b => if b = 0 then none else some (a / b)
  | _, _ => none

/-- Division by a plain (finite) number. -/
def jDivQ (j : JNum) (q : ℚ) : JNum := jDiv j (some q)

/-- `v >= 0` in JavaScript; false on NaN (and on -Infinity; +Infinity
does not arise at the comparison sites modelled here). -/
def jGe0 : JNum → Bool
  | some a => decide (0 ≤ a)
  | none => false

/-- `v > 0` in JavaScript; false on NaN. -/
def jGt0 : JNum → Bool
  | some a => decide (0 < a)
  | none => false

def jAbs : JNum → JNum := Option.map (fun q => |q|)

/-- `Math.round` lifted: NaN/Infinity propagate. -/
def jRound : JNum → JNum := Option.map (fun q => ((jsRound q : ℤ) : ℚ))

/-- `v.toFixed(4)` lifted (the source coerces the resulting string
straight back to a number, so only its value matters). -/
def jToFixed4 : JNum → JNum := Option.map (toFixedVal 4)

/-- `~~v`: ToInt32; NaN and ±Infinity map to 0. -/
def jToInt32 : JNum → ℤ
  | some q => toInt32 (jsTrunc q)
  | none => 0

/-- JavaScript `%` (remainder with the sign of the dividend) by a plain
number; `x % 0` is NaN. -/
def jRem (j : JNum) (b : ℚ) : JNum :=
  match j with
  | some a => if b = 0 then none else some (a - b * ((jsTrunc (a / b) : ℤ) : ℚ))
  | none => none

/-! ## Decimal digit rendering

Rendering of nonnegative integers in base 10, used by the models of
`toFixed` and of number→string conversion.  The fuel (64) bounds the
digit count; every value reachable in the modelled pipeline stays far
below 10^64 (JavaScript's `toFixed` itself switches to exponential
notation past 10^21, a regime outside this model). -/

def digitChar (d : Nat) : Char := Char.ofNat (48 + d)

def natDigitsAux : Nat → Nat → List Char → List Char
  | 0, _, acc => acc
  | fuel + 1, n, acc =>
    if n = 0 then acc else natDigitsAux fuel (n / 10) (digitChar (n % 10) :: acc)

/-- Base-10 rendering of a natural number. -/
def natDigitString (n : Nat) : String :=
  if n = 0 then "0" else String.mk (natDigitsAux 64 n [])

/-- Left-pad with zeros to the given length. -/
def padZeros (len : Nat) (s : String) : String :=
  String.mk (List.replicate (len - s.length) '0' ++ s.toList)

/-- `q.toFixed(d)` for a finite `q`: fixed-point decimal string with
exactly `d` fractional digits, ties away from zero, the sign taken from
`q` itself (so a negative value rounding to zero keeps its minus sign,
as in ECMAScript). -/
def toFixedStr (d : Nat) (q : ℚ) : String :=
  let sign := if q < 0 then "-" else ""
  let n := (fixRound (|q| * 10 ^ d)).toNat
  if d = 0 then sign ++ natDigitString n
  else sign ++ natDigitString (n / 10 ^ d) ++ "." ++ padZeros d (natDigitString (n % 10 ^ d))

/-- `toFixed` lifted to doubles: `NaN.toFixed(d) = "NaN"` (±Infinity,
also rendered specially by ECMAScript, is lumped with NaN here). -/
def jToFixedStr (d : Nat) : JNum → String
  | some q => toFixedStr d q
  | none => "NaN"

/-! ## Configuration

`Options` in the source, after the constructor's
`Object.assign({}, defaults, opts)` merge: every field present.  The
`format` (custom formatter function) and `groups` fields are not
carried: the constructor unconditionally overwrites `groups` from
`useVedic`, so the grouping regex is derived from `useVedic` at the
point of use, and no modelled claim exercises a custom formatter. -/

structure Settings where
  symbol : String
  separator : String
  decimal : String
  errorOnInvalid : Bool
  precision : Nat
  increment : ℚ
  useVedic : Bool
  pattern : String
  negativePattern : String
  fromCents : Bool
deriving DecidableEq

/-- `pow(p) = Math.pow(10, p)` (the source only calls it on the
configured precision, a nonnegative integer). -/
def pow (p : Nat) : ℚ := 10 ^ p

/-- The `defaults` object.  `increment` is left out of the source's
defaults (undefined); `0` plays the role of the missing value here, and
the constructor replaces any falsy increment (`undefined` or `0`) by
`1/precision` exactly as `settings.increment || 1/precision` does. -/
def defaults : Settings :=
  { symbol := "$"
    separator := ","
    decimal := "."
    errorOnInvalid := false
    precision := 2
    increment := 0
    useVedic := false
    pattern := "!#"
    negativePattern := "-!#"
    fromCents := false }

/-- The constructor's post-parse settings fixup:
`settings.increment = settings.increment || 1 / precision` (the
`groups` assignment is represented by deriving the grouping rule from
`useVedic` at format time). -/
def resolveSettings (s : Settings) : Settings :=
  { s with increment := if s.increment = 0 then 1 / pow s.precision else s.increment }

/-- A constructed `currency` instance: `intValue` (the minor-unit
value, a double in the source) and the settings stored on it.
`value` and `_precision` are derived fields, see below. -/
structure Currency where
  intValue : JNum
  settings : Settings
deriving DecidableEq

/-- `that.value = v / precision`, with the precision of the instance's
own settings (exactly what the constructor stored). -/
def Currency.value (c : Currency) : JNum :=
  c.intValue.map (fun v => v / pow c.settings.precision)

/-- The value argument of `currency(value, opts)` / `parse`:
a (finite) number, a string, another currency instance, or a value of
any unsupported type (`other`, e.g. a plain object). -/
inductive JSInput where
  | num (v : ℚ)
  | str (s : String)
  | cur (c : Currency)
  | other

/-! ## The string pipeline of `parse`

`value.replace(/\((.*)\)/, "-$1").replace(regex, "").replace(decimalString, ".")`
followed by `v = v || 0` and numeric coercion. -/

/-- Split a list at the first occurrence of `ch`. -/
def splitFirstChar (ch : Char) : List Char → Option (List Char × List Char)
  | [] => none
  | c :: rest =>
    if c = ch then some ([], rest)
    else (splitFirstChar ch rest).map (fun p => (c :: p.1, p.2))

/-- Split a list at the last occurrence of `ch`. -/
def splitLastChar (ch : Char) (l : List Char) : Option (List Char × List Char) :=
  (splitFirstChar ch l.reverse).map (fun p => (p.2.reverse, p.1.reverse))

/-- `s.replace(/\((.*)\)/, "-$1")`: a surrounding parenthesis pair is
an accounting-style negative sign.  The greedy group runs from the
first `(` to the last `)`; no match leaves the string unchanged.  (The
ECMAScript `.` does not cross line terminators; strings where that
matters are not exercised by any claim.) -/
def parenNegative (s : String) : String :=
  match splitFirstChar '(' s.toList with
  | none => s
  | some (pre, post) =>
    match splitLastChar ')' post with
    | none => s
    | some (mid, suf) => String.mk (pre ++ '-' :: (mid ++ suf))

/-- `s.replace(new RegExp("[^-\\d" + decimal + "]", "g"), "")`: drop
every character that is not `-`, a digit, or (a character of) the
configured decimal mark.  Faithful for the single ordinary-character
decimal marks the library is used with. -/
def stripNonNumeric (decimal : String) (s : String) : String :=
  String.mk (s.toList.filter (fun c => c == '-' || c.isDigit || decimal.toList.contains c))

/-- `s.replace(new RegExp("\\" + decimal, "g"), ".")`: canonicalize the
decimal mark to a dot (single-character decimal marks). -/
def normalizeDecimal (decimal : String) (s : String) : String :=
  String.mk (s.toList.map (fun c => if decimal.toList.contains c then '.' else c))

/-- The stripped, decimal-normalized form of a string input: the value
of `v` after the three `replace` calls. -/
def strippedForm (decimal : String) (s : String) : String :=
  normalizeDecimal decimal (stripNonNumeric decimal (parenNegative s))

def digitsToNat (l : List Char) : Nat :=
  l.foldl (fun a c => 10 * a + (c.toNat - 48)) 0

/-- An unsigned ECMAScript decimal literal over `-`, `.` and digits:
`digits`, `digits.`, `digits.digits` or `.digits`; anything else is
NaN. -/
def parseUnsignedDec (l : List Char) : Option ℚ :=
  let ip := l.takeWhile Char.isDigit
  let rest := l.drop ip.length
  match rest with
  | [] => if ip.isEmpty then none else some ((digitsToNat ip : ℕ) : ℚ)
  | c :: frac =>
    if c == '.' && frac.all Char.isDigit && (!ip.isEmpty || !frac.isEmpty) then
      some ((digitsToNat ip : ℕ) + ((digitsToNat frac : ℕ) : ℚ) / 10 ^ frac.length)
    else none

/-- ECMAScript ToNumber restricted to strings over `-`, `.` and digits
(the image of the stripping step; the stripped forms can contain no
whitespace, exponent, hex or Infinity syntax).  `""` is 0; anything
unparsable is NaN. -/
def strToNumber (s : String) : JNum :=
  match s.toList with
  | [] => some 0
  | c :: rest => if c = '-' then (parseUnsignedDec rest).map Neg.neg else parseUnsignedDec (c :: rest)

/-- The full string branch of `parse`: strip, then `v = v || 0` (an
empty string is falsy and becomes 0), then numeric coercion of the
surviving string. -/
def stringToNum (decimal : String) (s : String) : JNum :=
  let stripped := strippedForm decimal s
  if stripped = "" then some 0 else strToNumber stripped

/-! ## parse -/

/-- The numeric tail of `parse`: unless the value is already in minor
units, scale by `10^precision` and absorb noise with `toFixed(4)`;
then `Math.round` it (unless `useRounding` is false, in which case the
scaled-but-unrounded value is returned). -/
def parseNumJ (v : JNum) (opts : Settings) (useRounding : Bool) : JNum :=
  let v := if opts.fromCents then v else jToFixed4 (jMul v (some (pow opts.precision)))
  if useRounding then jRound v else v

/-- `parse(value, opts, useRounding)` without its `throw`: the value
computed on the non-throwing paths (for an unsupported input with
`errorOnInvalid` unset, `v = 0`). -/
def parseValue (value : JSInput) (opts : Settings) (useRounding : Bool) : JNum :=
  match value with
  | .cur c => if opts.fromCents then c.intValue else parseNumJ c.value opts useRounding
  | .num q => parseNumJ (some q) opts useRounding
  | .str s => parseNumJ (stringToNum opts.decimal s) opts useRounding
  | .other => parseNumJ (some 0) opts useRounding

/-- `parse`, with `throw Error("Invalid Input")` modelled as `Except.error`:
it throws exactly when the input is of an unsupported type and
`errorOnInvalid` is set. -/
def parse (value : JSInput) (opts : Settings) (useRounding : Bool) : Except String JNum :=
  match value with
  | .other =>
    if opts.errorOnInvalid then Except.error "Invalid Input"
    else Except.ok (parseValue .other opts useRounding)
  | v => Except.ok (parseValue v opts useRounding)

/-! ## The constructor -/

/-- `currency(value, opts)`: merge the settings (callers pass the
merged record directly), parse, store `intValue` and the fixed-up
settings. -/
def currency (value : JSInput) (opts : Settings) : Except String Currency :=
  (parse value opts true).map (fun v => { intValue := v, settings := resolveSettings opts })

/-- The constructor applied to a plain number, as every internal
call-site (`add`, `subtract`, `multiply`, `divide`, `distribute`) uses
it: the number branch of `parse` never throws. -/
def currencyNum (v : JNum) (s : Settings) : Currency :=
  { intValue := parseNumJ v s true, settings := resolveSettings s }

/-! ## Arithmetic operations -/

/-- The divisor `fromCents ? 1 : _precision` used when an operation
rescales its integer result back to major units before handing it to
the constructor. -/
def currencyPrec (s : Settings) : ℚ :=
  if s.fromCents then 1 else pow s.precision

/-- `add` after its operand has been parsed:
`currency((intValue + p) / (fromCents ? 1 : _precision), _settings)`. -/
def Currency.addParsed (c : Currency) (p : JNum) : Currency :=
  currencyNum (jDivQ (jAdd c.intValue p) (currencyPrec c.settings)) c.settings

/-- `subtract` after its operand has been parsed. -/
def Currency.subtractParsed (c : Currency) (p : JNum) : Currency :=
  currencyNum (jDivQ (jSub c.intValue p) (currencyPrec c.settings)) c.settings

/-- `add(number)`: parse the operand with the receiver's settings, then
rebuild; the parse propagates the `InvalidInput` throw. -/
def Currency.add (c : Currency) (number : JSInput) : Except String Currency :=
  (parse number c.settings true).map c.addParsed

/-- `subtract(number)`. -/
def Currency.subtract (c : Currency) (number : JSInput) : Except String Currency :=
  (parse number c.settings true).map c.subtractParsed

/-- `multiply(number)`: the multiplier is used as a raw number (the
source casts it, it is never sent through `parse`). -/
def Currency.multiply (c : Currency) (number : ℚ) : Currency :=
  currencyNum (jDivQ (jMul c.intValue (some number)) (currencyPrec c.settings)) c.settings

/-- `divide(number)`: the divisor is parsed *without* rounding, and the
quotient is handed to the constructor as a major-unit value. -/
def Currency.divide (c : Currency) (number : JSInput) : Except String Currency :=
  (parse number c.settings false).map (fun p => currencyNum (jDiv c.intValue p) c.settings)

/-- The body of `distribute`'s `for (; count !== 0; count--)` loop:
each iteration constructs `currency(split / precision, _settings)` and,
while `pennies-- > 0`, adds (nonnegative amount) or subtracts
(negative amount) one penny — `item.add(1/precision)` parses the penny
with the item's settings, the number branch of `add`. -/
def distLoop (s : Settings) (split : JNum) (prec : ℚ) (nonneg : Bool) :
    Nat → JNum → List Currency
  | 0, _ => []
  | count + 1, pennies =>
    let item0 := currencyNum (jDivQ split prec) s
    let item :=
      if jGt0 pennies then
        if nonneg then item0.addParsed (parseValue (JSInput.num (1 / prec)) item0.settings true)
        else item0.subtractParsed (parseValue (JSInput.num (1 / prec)) item0.settings true)
      else item0
    item :: distLoop s split prec nonneg count (jSub pennies (some 1))

/-- `distribute(count)` for a nonnegative integer count.  `count = 0`
skips the loop entirely and returns `[]` (the `intValue / count` used
for `split` is then non-finite, but never read).  A negative count
makes the source loop forever and is outside this total model. -/
def Currency.distribute (c : Currency) (count : Nat) : List Currency :=
  let q := jDiv c.intValue (some (count : ℚ))
  let split : JNum :=
    if jGe0 c.intValue then q.map (fun x => ((⌊x⌋ : ℤ) : ℚ))
    else q.map (fun x => ((⌈x⌉ : ℤ) : ℚ))
  let pennies := jAbs (jSub c.intValue (jMul split (some (count : ℚ))))
  let prec := currencyPrec c.settings
  distLoop c.settings split prec (jGe0 c.intValue) count pennies

/-! ## Accessors -/

/-- `dollars() { return ~~this.value; }` -/
def Currency.dollars (c : Currency) : ℤ := jToInt32 c.value

/-- `cents() { return ~~(intValue % _precision); }` -/
def Currency.cents (c : Currency) : ℤ :=
  jToInt32 (jRem c.intValue (pow c.settings.precision))

/-! ## String conversion -/

/-- `rounding(value, increment) = round(value / increment) * increment`. -/
def rounding (v : JNum) (increment : ℚ) : JNum :=
  jMul (jRound (jDivQ v increment)) (some increment)

/-- `toString()`:
`rounding(intValue / _precision, settings.increment).toFixed(settings.precision)`. -/
def Currency.toString (c : Currency) : String :=
  jToFixedStr c.settings.precision
    (rounding (jDivQ c.intValue (pow c.settings.precision)) c.settings.increment)

/-- `valueOf() { return Number(this.toString()); }` — the canonical
string coerced back to a number. -/
def Currency.valueOf (c : Currency) : JNum := strToNumber (Currency.toString c)

/-! ## Number → string (ECMAScript ToString)

Needed because `format` evaluates `('' + currency)`: string
concatenation applies ToPrimitive with the default hint, which calls
`valueOf` (a Number) first, so the interpolated text is the ECMAScript
rendering of that number — not `toString()`'s fixed-point string. -/

/-- Multiplicity of a prime `p` in `n` (fuel-bounded; the fuel is ample
for every denominator reachable here). -/
def primeMult (p : Nat) : Nat → Nat → Nat
  | 0, _ => 0
  | fuel + 1, n => if n % p = 0 && n ≠ 0 then 1 + primeMult p fuel (n / p) else 0

/-- The number of decimal digits needed to write `1/den` exactly, when
`den = 2^a * 5^b` (every value coerced from a canonical decimal string
has such a denominator). -/
def decDigits (den : Nat) : Option Nat :=
  let a := primeMult 2 4096 den
  let b := primeMult 5 4096 den
  if den = 2 ^ a * 5 ^ b then some (max a b) else none

/-- ECMAScript ToString of a finite number whose value has a finite
decimal expansion: shortest fixed-point decimal form (the exponential
regimes |q| ≥ 1e21 and |q| < 1e-6, and non-decimal values, which cannot
arise from the canonical strings coerced here, fall back to an
approximate rendering). -/
def numToStringQ (q : ℚ) : String :=
  if q = 0 then "0"
  else
    let sign := if q < 0 then "-" else ""
    match decDigits q.den with
    | some k =>
      let m := (|q| * 10 ^ k).num.toNat
      if k = 0 then sign ++ natDigitString m
      else sign ++ natDigitString (m / 10 ^ k) ++ "." ++ padZeros k (natDigitString (m % 10 ^ k))
    | none => toFixedStr 20 q

def numToString : JNum → String
  | some q => numToStringQ q
  | none => "NaN"

/-- `('' + currency)`: ToPrimitive prefers `valueOf`, whose Number
result is then converted by ECMAScript ToString. -/
def Currency.coerceString (c : Currency) : String := numToString (Currency.valueOf c)

/-! ## Formatting -/

/-- `s.replace(pat, rep)` with a plain-string pattern: first occurrence
only (`s.replace("", r)` prepends `r`, as in ECMAScript). -/
def replaceFirstAux (pat rep : List Char) : List Char → List Char
  | [] => if pat.isEmpty then rep else []
  | c :: rest =>
    if pat.isPrefixOf (c :: rest) then rep ++ (c :: rest).drop pat.length
    else c :: replaceFirstAux pat rep rest

def replaceFirst (s pat rep : String) : String :=
  String.mk (replaceFirstAux pat.toList rep.toList s.toList)

/-- Where the grouping regexes insert a separator, in a digit string,
in terms of the number `r` of digits that follow the current one:
`groupRegex = /(\d)(?=(\d{3})+\b)/g` matches when `r` is a positive
multiple of 3; `vedicRegex = /(\d)(?=(\d\d)+\d\b)/g` matches when `r`
is odd and at least 3. -/
def groupBoundary (vedic : Bool) (r : Nat) : Bool :=
  if vedic then 3 ≤ r && r % 2 = 1 else 0 < r && r % 3 = 0

/-- `dollars.replace(groups, "$1" + separator)` on an all-digit
string. -/
def groupChars (vedic : Bool) (sep : List Char) : List Char → List Char
  | [] => []
  | c :: rest =>
    c :: (if c.isDigit && groupBoundary vedic rest.length then sep ++ groupChars vedic sep rest
          else groupChars vedic sep rest)

def groupDigits (vedic : Bool) (sep : String) (s : String) : String :=
  String.mk (groupChars vedic sep.toList s.toList)

/-- The `.replace` of a leading minus sign by `""` applied by `format`
to the coerced string. -/
def dropLeadingMinus (s : String) : String :=
  match s.toList with
  | c :: rest => if c = '-' then String.mk rest else s
  | [] => s

/-- `split(".")` on a character list (JavaScript `String.split` with a
one-character separator). -/
def splitOnDot : List Char → List (List Char)
  | [] => [[]]
  | c :: rest =>
    let r := splitOnDot rest
    if c = '.' then [] :: r else (c :: r.headD []) :: r.tail

/-- The standalone `format(currency, settings)` function: choose the
pattern by the sign of `value`, split the coerced string into dollars
and cents, group the dollars, and substitute `!` and `#`.  JavaScript's
`split` leaves `cents` undefined when there is no dot, and both
`undefined` and `""` are falsy, so the decimal part is emitted only for
a nonempty cents string. -/
def formatFn (c : Currency) (settings : Settings) : String :=
  let parts := splitOnDot (dropLeadingMinus (Currency.coerceString c)).toList
  let dollars := parts.headD []
  let cents := (parts.drop 1).headD []
  let pat := if jGe0 (Currency.value c) then settings.pattern else settings.negativePattern
  replaceFirst (replaceFirst pat "!" settings.symbol) "#"
    (groupDigits settings.useVedic settings.separator (String.mk dollars) ++
      (if !cents.isEmpty then settings.decimal ++ String.mk cents else ""))

/-- `format()` with no options: the stored settings are merged with
nothing and handed to the default formatter. -/
def Currency.format (c : Currency) : String := formatFn c c.settings

/-! ## Specification-side definitions

These are written from the wording of the specification sentences under
check (not from the source), to be compared with the embedded code. -/

/-- Claim C1's description of the i-th share of distributing `a` minor
units over `n` recipients: for nonnegative amounts the base share is
the floor of `a/n` and the leftover minor units are added one-by-one to
the earliest shares; for negative amounts the base share is the ceiling
and the leftover minor units are subtracted from the earliest shares. -/
def shareValue (a : ℤ) (n : ℕ) (i : ℕ) : ℤ :=
  if 0 ≤ a then a / n + (if (i : ℤ) < a % n then 1 else 0)
  else -((-a) / n) - (if (i : ℤ) < (-a) % n then 1 else 0)

/-- Rounding to the nearest integer, half away from zero. -/
def roundHalfAwayFromZero (x : ℚ) : ℤ :=
  if 0 ≤ x then ⌊x + 1 / 2⌋ else -⌊-x + 1 / 2⌋

/-- Rounding to the nearest integer, ties toward +∞ (what
`Math.round` actually does). -/
def roundHalfTowardPosInf (x : ℚ) : ℤ := ⌊x + 1 / 2⌋

/-- Truncation toward zero. -/
def truncateToward0 (x : ℚ) : ℤ := if 0 ≤ x then ⌊x⌋ else ⌈x⌉

/-- Claim C3's stated rounding policy: scale by `10^p`, truncate the
scaled value to 4 decimal places, then round to the nearest integer
half away from zero. -/
def specClaimedParsePolicy (p : ℕ) (x : ℚ) : ℤ :=
  roundHalfAwayFromZero (((truncateToward0 (x * 10 ^ p * 10 ^ 4) : ℤ) : ℚ) / 10 ^ 4)

/-- The amended rounding policy: scale by `10^p`, round the scaled
value to 4 decimal places half away from zero (`toFixed`), then round
to the nearest integer with ties toward +∞ (`Math.round`). -/
def specAmendedParsePolicy (p : ℕ) (x : ℚ) : ℤ :=
  roundHalfTowardPosInf (((roundHalfAwayFromZero (x * 10 ^ p * 10 ^ 4) : ℤ) : ℚ) / 10 ^ 4)

/-- Claim C10's description of `dollars()`: the truncated (toward-zero)
integer major-unit part — here in integer form, the toward-zero
quotient of the minor units by the scale factor. -/
def specTruncDiv (z m : ℤ) : ℤ := if 0 ≤ z then z / m else -((-z) / m)

/-- Claim C10's description of `cents()`: the truncated minor-unit
remainder, sign following the value: `minorUnits mod 10^p` with the
dividend's sign. -/
def specRemainder (z m : ℤ) : ℤ := z - m * specTruncDiv z m

/-- A double that is either non-finite or holds an integer — the shape
claim C7 asserts for every `intValue` (amended to allow the non-finite
case). -/
def isIntOrNaN (j : JNum) : Prop := j = none ∨ ∃ z : ℤ, j = some (z : ℚ)

/-- For claim C7: inputs whose own `intValue` already satisfies the
invariant (a currency input under `fromCents` is returned verbatim, so
the invariant of the output is inherited from the input). -/
def goodInput : JSInput → Prop
  | .cur c => isIntOrNaN c.intValue
  | _ => True

/-! ## Helper lemmas -/

lemma jsRound_intCast (z : ℤ) : jsRound (z : ℚ) = z := by
  unfold jsRound
  rw [Int.floor_eq_iff]
  constructor <;> linarith

lemma fixRound_intCast (z : ℤ) : fixRound (z : ℚ) = z := by
  unfold fixRound
  split
  · rw [Int.floor_eq_iff]
    constructor <;> linarith
  · have : ⌊-(z : ℚ) + 1 / 2⌋ = -z := by
      rw [show -(z : ℚ) + 1 / 2 = ((-z : ℤ) : ℚ) + 1 / 2 by push_cast; ring]
      rw [Int.floor_eq_iff]
      constructor <;> push_cast <;> linarith
    rw [this, neg_neg]

lemma pow_pos' (p : Nat) : (0 : ℚ) < pow p := by
  unfold pow; positivity

lemma pow_ne_zero' (p : Nat) : pow p ≠ 0 := ne_of_gt (pow_pos' p)

lemma currencyPrec_pos (s : Settings) : 0 < currencyPrec s := by
  unfold currencyPrec
  split
  · norm_num
  · exact pow_pos' s.precision

lemma currencyPrec_ne_zero (s : Settings) : currencyPrec s ≠ 0 :=
  ne_of_gt (currencyPrec_pos s)

lemma resolve_fromCents (s : Settings) : (resolveSettings s).fromCents = s.fromCents := rfl

lemma resolve_precision (s : Settings) : (resolveSettings s).precision = s.precision := rfl

lemma currencyPrec_resolve (s : Settings) : currencyPrec (resolveSettings s) = currencyPrec s := rfl

lemma toFixedVal_intCast (d : Nat) (z : ℤ) : toFixedVal d ((z : ℤ) : ℚ) = (z : ℚ) := by
  unfold toFixedVal
  rw [show ((z : ℤ) : ℚ) * 10 ^ d = (((z * 10 ^ d : ℤ) : ℤ) : ℚ) by push_cast; ring]
  rw [fixRound_intCast]
  push_cast
  field_simp

/-- Reconstructing `z / prec` through the constructor's number path
yields exactly `z` again: the scaling is undone exactly, `toFixed(4)`
and `Math.round` fix integers. -/
lemma parseNumJ_exact (s : Settings) (z : ℤ) :
    parseNumJ (some ((z : ℚ) / currencyPrec s)) s true = some ((z : ℤ) : ℚ) := by
  by_cases h : s.fromCents
  · simp [parseNumJ, currencyPrec, h, jRound, jsRound_intCast]
  · simp only [parseNumJ, currencyPrec, h, Bool.false_eq_true, if_false, jMul, jToFixed4,
      Option.map_some', jRound, if_true]
    rw [div_mul_cancel₀ _ (pow_ne_zero' s.precision)]
    simp only [Option.map_some', toFixedVal_intCast, jsRound_intCast]

lemma parseNumJ_zero (s : Settings) : parseNumJ (some 0) s true = some 0 := by
  have h := parseNumJ_exact s 0
  rw [show ((0 : ℤ) : ℚ) / currencyPrec s = 0 by rw [Int.cast_zero, zero_div]] at h
  rw [h, Int.cast_zero]

/-- After rounding, the numeric path of `parse` produces a non-finite
value or an integer. -/
lemma parseNumJ_int (v : JNum) (s : Settings) : isIntOrNaN (parseNumJ v s true) := by
  unfold parseNumJ
  cases v with
  | none =>
    by_cases h : s.fromCents <;> simp [h, jRound, jMul, jToFixed4, isIntOrNaN]
  | some q =>
    by_cases h : s.fromCents
    · simp only [h, if_true, jRound, Option.map_some]
      exact Or.inr ⟨jsRound q, rfl⟩
    · simp only [h, if_false, jMul, jToFixed4, Option.map_some, jRound]
      exact Or.inr ⟨_, rfl⟩

lemma floor_intCast_div_nat (a : ℤ) (n : ℕ) : ⌊(a : ℚ) / (n : ℚ)⌋ = a / (n : ℤ) :=
  Rat.floor_intCast_div_natCast a n

lemma ceil_intCast_div_nat (a : ℤ) (n : ℕ) : ⌈(a : ℚ) / (n : ℚ)⌉ = -((-a) / (n : ℤ)) := by
  have h : ⌊-((a : ℚ) / (n : ℚ))⌋ = -⌈(a : ℚ) / (n : ℚ)⌉ := Int.floor_neg
  rw [← neg_div, show -(a : ℚ) = ((-a : ℤ) : ℚ) by push_cast; ring,
    floor_intCast_div_nat] at h
  omega

lemma jGe0_intCast (z : ℤ) : jGe0 (some ((z : ℤ) : ℚ)) = decide (0 ≤ z) := by
  simp only [jGe0]
  exact decide_eq_decide.mpr Int.cast_nonneg

lemma jGt0_intCast (z : ℤ) : jGt0 (some ((z : ℤ) : ℚ)) = decide (0 < z) := by
  simp only [jGt0]
  exact decide_eq_decide.mpr Int.cast_pos

lemma jDivQ_some (q : ℚ) (b : ℚ) (hb : b ≠ 0) : jDivQ (some q) b = some (q / b) := by
  simp [jDivQ, jDiv, hb]

lemma currencyNum_settings (v : JNum) (s : Settings) :
    (currencyNum v s).settings = resolveSettings s := rfl

/-- The `intValue` of `currency(z / prec, settings)` for integral `z`,
as constructed inside `distribute`. -/
lemma currencyNum_div_intValue (s : Settings) (z : ℤ) :
    (currencyNum (jDivQ (some ((z : ℤ) : ℚ)) (currencyPrec s)) s).intValue
      = some ((z : ℤ) : ℚ) := by
  rw [jDivQ_some _ _ (currencyPrec_ne_zero s)]
  exact parseNumJ_exact s z

lemma addParsed_intValue (c : Currency) (z w : ℤ) (hc : c.intValue = some ((z : ℤ) : ℚ)) :
    (c.addParsed (some ((w : ℤ) : ℚ))).intValue = some (((z + w : ℤ) : ℤ) : ℚ) := by
  simp only [Currency.addParsed, hc, jAdd]
  rw [show (z : ℚ) + (w : ℚ) = (((z + w : ℤ) : ℤ) : ℚ) by push_cast; ring]
  rw [jDivQ_some _ _ (currencyPrec_ne_zero c.settings)]
  exact parseNumJ_exact c.settings (z + w)

lemma subtractParsed_intValue (c : Currency) (z w : ℤ) (hc : c.intValue = some ((z : ℤ) : ℚ)) :
    (c.subtractParsed (some ((w : ℤ) : ℚ))).intValue = some (((z - w : ℤ) : ℤ) : ℚ) := by
  simp only [Currency.subtractParsed, hc, jSub]
  rw [show (z : ℚ) - (w : ℚ) = (((z - w : ℤ) : ℤ) : ℚ) by push_cast; ring]
  rw [jDivQ_some _ _ (currencyPrec_ne_zero c.settings)]
  exact parseNumJ_exact c.settings (z - w)

/-- The penny parsed inside the loop: `parse(1/precision, settings)`
is exactly one minor unit. -/
lemma parse_penny (s : Settings) :
    parseValue (JSInput.num (1 / currencyPrec s)) (resolveSettings s) true
      = some (((1 : ℤ) : ℤ) : ℚ) := by
  have h : (1 : ℚ) / currencyPrec s = (((1 : ℤ) : ℤ) : ℚ) / currencyPrec (resolveSettings s) := by
    rw [currencyPrec_resolve]; norm_num
  simp only [parseValue, h]
  exact parseNumJ_exact (resolveSettings s) 1

/-- The value of one share as an integer: the base plus one penny in
the direction given by `nonneg`, for the first `p` shares. -/
def loopShare (z : ℤ) (nonneg : Bool) (p : ℤ) (i : ℕ) : ℤ :=
  z + if (i : ℤ) < p then (if nonneg then 1 else -1) else 0

/-- What the distribution loop produces, elementwise, when `split` and
`pennies` are integers: share `i` (0-based) is `split` plus one penny
(added or subtracted according to `nonneg`) exactly when `i < pennies`. -/
lemma distLoop_map_intValue (s : Settings) (z : ℤ) (nonneg : Bool) (k : ℕ) :
    ∀ p : ℤ,
      (distLoop s (some ((z : ℤ) : ℚ)) (currencyPrec s) nonneg k (some ((p : ℤ) : ℚ))).map
          Currency.intValue
        = (List.range k).map (fun (i : ℕ) => some ((loopShare z nonneg p i : ℤ) : ℚ)) := by
  induction k with
  | zero => intro p; simp [distLoop]
  | succ m ih =>
    intro p
    have hitem : (currencyNum (jDivQ (some ((z : ℤ) : ℚ)) (currencyPrec s)) s).intValue
        = some ((z : ℤ) : ℚ) := currencyNum_div_intValue s z
    have hpenny := parse_penny s
    simp only [distLoop, List.map_cons, jGt0_intCast, jSub, List.range_succ_eq_map,
      List.map_map]
    rw [show ((p : ℚ) - 1) = (((p - 1 : ℤ) : ℤ) : ℚ) by push_cast; ring]
    rw [ih (p - 1)]
    refine List.cons_eq_cons.mpr ⟨?_, ?_⟩
    · by_cases hp : 0 < p
      · rw [if_pos (by simpa using hp)]
        cases nonneg with
        | true =>
          simp only [if_true, currencyNum_settings, hpenny]
          rw [addParsed_intValue _ z 1 hitem]
          unfold loopShare
          rw [if_pos (by exact_mod_cast hp)]
          norm_num
        | false =>
          simp only [Bool.false_eq_true, if_false, currencyNum_settings, hpenny]
          rw [subtractParsed_intValue _ z 1 hitem]
          unfold loopShare
          rw [if_pos (by exact_mod_cast hp)]
          norm_num
          ring
      · rw [if_neg (by simpa using hp)]
        rw [hitem]
        unfold loopShare
        rw [if_neg (by exact_mod_cast hp)]
        norm_num
    · apply List.map_congr_left
      intro i _
      simp only [Function.comp]
      unfold loopShare
      congr 2
      have hiff : ((Nat.succ i : ℕ) : ℤ) < p ↔ (i : ℤ) < p - 1 := by push_cast; omega
      by_cases h : (i : ℤ) < p - 1
      · rw [if_pos h, if_pos (hiff.mpr h)]
      · rw [if_neg h, if_neg (fun hh => h (hiff.mp hh))]

lemma sum_map_add_const (n : ℕ) (b : ℤ) (f : ℕ → ℤ) :
    ((List.range n).map (fun (i : ℕ) => b + f i)).sum
      = n * b + ((List.range n).map f).sum := by
  induction n with
  | zero => simp
  | succ k ih =>
    rw [List.range_succ]
    simp only [List.map_append, List.sum_append, List.map_cons, List.sum_cons,
      List.map_nil, List.sum_nil, add_zero, ih]
    push_cast
    ring

lemma sum_indicator (n : ℕ) (m : ℤ) (hm : 0 ≤ m) :
    ((List.range n).map (fun (i : ℕ) => if (i : ℤ) < m then (1 : ℤ) else 0)).sum
      = min m n := by
  induction n with
  | zero => simpa using (min_eq_right hm).symm
  | succ k ih =>
    rw [List.range_succ]
    simp only [List.map_append, List.sum_append, List.map_cons, List.sum_cons,
      List.map_nil, List.sum_nil, add_zero, ih]
    by_cases h : (k : ℤ) < m
    · rw [if_pos h]
      push_cast
      omega
    · rw [if_neg h]
      push_cast
      omega

lemma sum_indicator_neg (n : ℕ) (m : ℤ) (hm : 0 ≤ m) :
    ((List.range n).map (fun (i : ℕ) => if (i : ℤ) < m then (-1 : ℤ) else 0)).sum
      = -(min m n) := by
  induction n with
  | zero => simp; omega
  | succ k ih =>
    rw [List.range_succ]
    simp only [List.map_append, List.sum_append, List.map_cons, List.sum_cons,
      List.map_nil, List.sum_nil, add_zero, ih]
    by_cases h : (k : ℤ) < m
    · rw [if_pos h]
      push_cast
      omega
    · rw [if_neg h]
      push_cast
      omega

lemma shareValue_sum (a : ℤ) (n : ℕ) (hn : 0 < n) :
    ((List.range n).map (shareValue a n)).sum = a := by
  have hnz : (0 : ℤ) < (n : ℤ) := by exact_mod_cast hn
  by_cases h : 0 ≤ a
  · have h1 : ∀ i ∈ List.range n,
        shareValue a n i = a / (n : ℤ) + (if (i : ℤ) < a % (n : ℤ) then (1 : ℤ) else 0) := by
      intro i _
      simp [shareValue, h]
    rw [List.map_congr_left h1, sum_map_add_const, sum_indicator _ _ (Int.emod_nonneg a (by omega))]
    have h2 : a % (n : ℤ) < n := Int.emod_lt_of_pos a hnz
    rw [min_eq_left h2.le]
    have h3 := Int.ediv_add_emod a (n : ℤ)
    linarith
  · have h1 : ∀ i ∈ List.range n,
        shareValue a n i
          = -((-a) / (n : ℤ)) + (if (i : ℤ) < (-a) % (n : ℤ) then (-1 : ℤ) else 0) := by
      intro i _
      simp only [shareValue, h, if_false]
      split <;> ring
    rw [List.map_congr_left h1, sum_map_add_const,
      sum_indicator_neg _ _ (Int.emod_nonneg (-a) (by omega))]
    have h2 : (-a) % (n : ℤ) < n := Int.emod_lt_of_pos (-a) hnz
    rw [min_eq_left h2.le]
    have h3 := Int.ediv_add_emod (-a) (n : ℤ)
    linarith

lemma shareValue_pairwise (a : ℤ) (n : ℕ) (i j : ℕ) :
    (shareValue a n i - shareValue a n j).natAbs ≤ 1 := by
  unfold shareValue
  split_ifs <;> omega

/-- The full distribution of an integral amount, elementwise. -/
lemma distribute_map_intValue (a : ℤ) (n : ℕ) (s : Settings) (hn : 0 < n) :
    (Currency.distribute ⟨some ((a : ℤ) : ℚ), s⟩ n).map Currency.intValue
      = (List.range n).map (fun (i : ℕ) => some ((shareValue a n i : ℤ) : ℚ)) := by
  have hncast : ((n : ℕ) : ℚ) ≠ 0 := Nat.cast_ne_zero.mpr (by omega)
  simp only [Currency.distribute, jGe0_intCast]
  by_cases h : 0 ≤ a
  · rw [decide_eq_true h]
    simp only [if_true, jDiv, hncast, if_false, Option.map_some']
    rw [floor_intCast_div_nat]
    simp only [jMul, jSub, jAbs, Option.map_some']
    have hpen : (a : ℚ) - ((a / (n : ℤ) : ℤ) : ℚ) * ((n : ℕ) : ℚ) = (((a % (n : ℤ)) : ℤ) : ℚ) := by
      have h3 := Int.ediv_add_emod a (n : ℤ)
      have h4 : ((n : ℕ) : ℚ) * ((a / (n : ℤ) : ℤ) : ℚ) + ((a % (n : ℤ) : ℤ) : ℚ) = (a : ℚ) := by
        exact_mod_cast h3
      linarith
    rw [hpen, abs_of_nonneg (by exact_mod_cast Int.emod_nonneg a (show (n : ℤ) ≠ 0 by omega))]
    rw [distLoop_map_intValue s (a / (n : ℤ)) true n (a % (n : ℤ))]
    apply List.map_congr_left
    intro i _
    have hsv : loopShare (a / (n : ℤ)) true (a % (n : ℤ)) i = shareValue a n i := by
      simp [loopShare, shareValue, h]
    rw [hsv]
  · rw [decide_eq_false h]
    simp only [Bool.false_eq_true, if_false, jDiv, hncast, Option.map_some']
    rw [ceil_intCast_div_nat]
    simp only [jMul, jSub, jAbs, Option.map_some']
    have hpen : (a : ℚ) - ((-((-a) / (n : ℤ)) : ℤ) : ℚ) * ((n : ℕ) : ℚ)
        = -((((-a) % (n : ℤ)) : ℤ) : ℚ) := by
      have h3 := Int.ediv_add_emod (-a) (n : ℤ)
      have h4 : ((n : ℕ) : ℚ) * (((-a) / (n : ℤ) : ℤ) : ℚ) + (((-a) % (n : ℤ) : ℤ) : ℚ)
          = ((-a : ℤ) : ℚ) := by
        exact_mod_cast h3
      push_cast at h4 ⊢
      linarith
    rw [hpen, abs_neg,
      abs_of_nonneg (by exact_mod_cast Int.emod_nonneg (-a) (show (n : ℤ) ≠ 0 by omega))]
    rw [distLoop_map_intValue s (-((-a) / (n : ℤ))) false n ((-a) % (n : ℤ))]
    apply List.map_congr_left
    intro i _
    have hsv : loopShare (-((-a) / (n : ℤ))) false ((-a) % (n : ℤ)) i = shareValue a n i := by
      simp only [loopShare, shareValue, if_neg h, Bool.false_eq_true, if_false]
      split_ifs <;> ring
    rw [hsv]

/-! ## Claim theorems -/

/-- C1: Distribution conservation.  For every value whose minor units
are an integer `a` and every positive count `n`, `distribute(n)`
returns exactly the shares described by `shareValue`: the base share is
the floor of `a/n` with the leftover minor units added one-by-one to
the earliest shares when `a ≥ 0`, and the ceiling with the leftover
subtracted from the earliest shares when `a < 0`; those shares sum to
`a` exactly and any two of them differ by at most one minor unit. -/
theorem distribute_conservation (a : ℤ) (n : ℕ) (s : Settings) (hn : 0 < n) :
    (Currency.distribute ⟨some ((a : ℤ) : ℚ), s⟩ n).map Currency.intValue
        = (List.range n).map (fun (i : ℕ) => some ((shareValue a n i : ℤ) : ℚ))
      ∧ ((List.range n).map (shareValue a n)).sum = a
      ∧ ∀ i ∈ List.range n, ∀ j ∈ List.range n,
          (shareValue a n i - shareValue a n j).natAbs ≤ 1 :=
  ⟨distribute_map_intValue a n s hn, shareValue_sum a n hn,
    fun i _ j _ => shareValue_pairwise a n i j⟩

/-- Witness for C1 at the spec's own example: 10000 minor units
distributed over 3 recipients. -/
theorem distribute_conservation_witness :
    (Currency.distribute ⟨some ((10000 : ℤ) : ℚ), defaults⟩ 3).map Currency.intValue
        = (List.range 3).map (fun (i : ℕ) => some ((shareValue 10000 3 i : ℤ) : ℚ))
      ∧ ((List.range 3).map (shareValue 10000 3)).sum = 10000
      ∧ ∀ i ∈ List.range 3, ∀ j ∈ List.range 3,
          (shareValue 10000 3 i - shareValue 10000 3 j).natAbs ≤ 1 :=
  distribute_conservation 10000 3 defaults (by norm_num)

/-- Evaluation rule for `toFixed` on a nonnegative value whose rounded
scaled form is known. -/
lemma toFixedStr_eval (d : Nat) (q : ℚ) (n : ℕ) (hq : 0 ≤ q)
    (h : fixRound (q * 10 ^ d) = (n : ℤ)) :
    toFixedStr d q
      = (if d = 0 then natDigitString n
         else natDigitString (n / 10 ^ d) ++ "." ++ padZeros d (natDigitString (n % 10 ^ d))) := by
  unfold toFixedStr
  rw [if_neg (not_lt.mpr hq), abs_of_nonneg hq, h]
  simp

lemma resolve_resolve (s : Settings) : resolveSettings (resolveSettings s) = resolveSettings s := by
  by_cases h : s.increment = 0 <;>
    simp [resolveSettings, h, one_div_ne_zero (pow_ne_zero' s.precision)]

lemma currency_num_ok (v : ℚ) (s : Settings) :
    currency (JSInput.num v) s
      = Except.ok ⟨parseValue (JSInput.num v) s true, resolveSettings s⟩ := rfl

lemma add_num (c : Currency) (v : ℚ) :
    c.add (JSInput.num v)
      = Except.ok (c.addParsed (parseValue (JSInput.num v) c.settings true)) := rfl

/-- C2: Exactness of integer-based addition:
`currency(0.1).add(0.2).toString()` is exactly `"0.30"` — the classic
binary floating-point result `0.30000000000000004` does not appear. -/
theorem exact_add_toString :
    ((currency (JSInput.num (1 / 10)) defaults).bind
        (fun c => c.add (JSInput.num (2 / 10)))).map Currency.toString
      = Except.ok "0.30" := by
  have hp1 : parseValue (JSInput.num (1 / 10)) defaults true = some 10 := by
    norm_num [parseValue, parseNumJ, defaults, jMul, jToFixed4, jRound, pow, toFixedVal,
      fixRound, jsRound]
  have hp2 : parseValue (JSInput.num (2 / 10)) (resolveSettings defaults) true = some 20 := by
    norm_num [parseValue, parseNumJ, defaults, resolveSettings, jMul, jToFixed4, jRound, pow,
      toFixedVal, fixRound, jsRound]
  have hp3 : parseNumJ (some (30 / 100)) (resolveSettings defaults) true = some 30 := by
    norm_num [parseNumJ, defaults, resolveSettings, jMul, jToFixed4, jRound, pow, toFixedVal,
      fixRound, jsRound]
  rw [currency_num_ok, hp1]
  show (Except.ok (Currency.addParsed _ (parseValue _ _ true))).map Currency.toString = _
  rw [hp2]
  simp only [Currency.addParsed, currencyNum, jAdd, Except.map]
  norm_num
  rw [resolve_resolve]
  have hcp : currencyPrec (resolveSettings defaults) = 100 := by
    norm_num [currencyPrec, resolveSettings, defaults, pow]
  rw [hcp, show jDivQ (some (30 : ℚ)) 100 = some (30 / 100) from by norm_num [jDivQ, jDiv], hp3]
  have hinc : (resolveSettings defaults).increment = 1 / 100 := by
    norm_num [resolveSettings, defaults, pow]
  have hprec : (resolveSettings defaults).precision = 2 := rfl
  simp only [Currency.toString, hinc, hprec]
  norm_num [rounding, jDivQ, jDiv, jRound, jMul, jsRound, pow]
  simp only [jToFixedStr]
  rw [toFixedStr_eval 2 (3 / 10) 30 (by norm_num) (by norm_num [fixRound])]
  decide

lemma ceil_eval (q : ℚ) (z : ℤ) (h1 : (z : ℚ) - 1 < q) (h2 : q ≤ (z : ℚ)) : ⌈q⌉ = z :=
  Int.ceil_eq_iff.mpr ⟨h1, h2⟩

lemma fixRound_eq_spec (x : ℚ) : roundHalfAwayFromZero x = fixRound x := rfl

lemma jsRound_eq_spec (x : ℚ) : roundHalfTowardPosInf x = jsRound x := rfl

/-- The numeric tail of `parse` is the amended policy, pointwise. -/
lemma parseNumJ_policy (s : Settings) (hs : s.fromCents = false) (v : JNum) :
    parseNumJ v s true
      = v.map (fun x => ((specAmendedParsePolicy s.precision x : ℤ) : ℚ)) := by
  cases v with
  | none => simp [parseNumJ, hs, jMul, jToFixed4, jRound]
  | some q =>
    simp only [parseNumJ, hs, Bool.false_eq_true, if_false, if_true, jMul, jToFixed4, jRound,
      Option.map_some']
    congr 1

/-- C3 (amended): for every numeric or string input under a
configuration that is not already in minor units, `parse` multiplies by
`10^precision`, rounds the scaled value to 4 decimal places half away
from zero (`toFixed(4)`), and then rounds to the nearest integer with
ties toward +∞ (`Math.round`); for strings the policy applies to the
number coerced from the stripped form. -/
theorem parse_rounding_policy (s : Settings) (hs : s.fromCents = false) :
    (∀ v : ℚ, parseValue (JSInput.num v) s true
        = some ((specAmendedParsePolicy s.precision v : ℤ) : ℚ))
      ∧ ∀ str : String, parseValue (JSInput.str str) s true
          = (stringToNum s.decimal str).map
              (fun x => ((specAmendedParsePolicy s.precision x : ℤ) : ℚ)) := by
  constructor
  · intro v
    rw [show parseValue (JSInput.num v) s true = parseNumJ (some v) s true from rfl]
    rw [parseNumJ_policy s hs]
    exact rfl
  · intro str
    rw [show parseValue (JSInput.str str) s true
        = parseNumJ (stringToNum s.decimal str) s true from rfl]
    rw [parseNumJ_policy s hs]

/-- C3 counterexample: the claim's stated policy (truncate to 4
decimals, then round half away from zero) disagrees with the code.  A
scaled value of exactly -0.5 (input -0.005 at precision 2) yields 0,
not the claimed -1; and a scaled value of 2.49996 yields 3 where the
claimed truncate-then-round policy yields 2 (`toFixed(4)` rounds,
it does not truncate). -/
theorem parse_rounding_policy_counterexample :
    parseValue (JSInput.num (-1 / 200)) defaults true = some 0
      ∧ specClaimedParsePolicy 2 (-1 / 200) = -1
      ∧ parseValue (JSInput.num (249996 / 10000000)) defaults true = some 3
      ∧ specClaimedParsePolicy 2 (249996 / 10000000) = 2 := by
  refine ⟨?_, ?_, ?_, ?_⟩
  · norm_num [parseValue, parseNumJ, defaults, jMul, jToFixed4, jRound, pow, toFixedVal,
      fixRound, jsRound]
  · have ht : truncateToward0 ((-1 / 200 : ℚ) * 10 ^ 2 * 10 ^ 4) = -5000 := by
      rw [truncateToward0, if_neg (by norm_num)]
      exact ceil_eval _ _ (by norm_num) (by norm_num)
    rw [specClaimedParsePolicy, ht]
    norm_num [roundHalfAwayFromZero]
  · norm_num [parseValue, parseNumJ, defaults, jMul, jToFixed4, jRound, pow, toFixedVal,
      fixRound, jsRound]
  · have ht : truncateToward0 ((249996 / 10000000 : ℚ) * 10 ^ 2 * 10 ^ 4) = 24999 := by
      rw [truncateToward0, if_pos (by norm_num)]
      norm_num
    rw [specClaimedParsePolicy, ht]
    norm_num [roundHalfAwayFromZero]

/-- Witness for C3's amended theorem at the default configuration and
input 0.1. -/
theorem parse_rounding_policy_witness :
    parseValue (JSInput.num (1 / 10)) defaults true
      = some ((specAmendedParsePolicy defaults.precision (1 / 10) : ℤ) : ℚ) :=
  (parse_rounding_policy defaults rfl).1 (1 / 10)

lemma parseNumJ_none (s : Settings) : parseNumJ none s true = none := by
  by_cases h : s.fromCents <;> simp [parseNumJ, h, jMul, jToFixed4, jRound]

/-- C4 (amended): construction from a string never raises, a string
whose stripped decimal-normalized form is empty yields exactly 0 minor
units, but a nonempty stripped form that is not a valid number yields
NaN minor units (not 0). -/
theorem malformed_string_tolerance (str : String) (opts : Settings) :
    (currency (JSInput.str str) opts).isOk = true
    ∧ (strippedForm opts.decimal str = "" →
        (currency (JSInput.str str) opts).map Currency.intValue = Except.ok (some 0))
    ∧ (strippedForm opts.decimal str ≠ "" → strToNumber (strippedForm opts.decimal str) = none →
        (currency (JSInput.str str) opts).map Currency.intValue = Except.ok none) := by
  refine ⟨rfl, ?_, ?_⟩
  · intro h
    have h0 : stringToNum opts.decimal str = some 0 := by rw [stringToNum, if_pos h]
    show Except.ok (parseNumJ (stringToNum opts.decimal str) opts true) = Except.ok (some 0)
    rw [h0, parseNumJ_zero]
  · intro h1 h2
    have h0 : stringToNum opts.decimal str = none := by rw [stringToNum, if_neg h1, h2]
    show Except.ok (parseNumJ (stringToNum opts.decimal str) opts true) = Except.ok none
    rw [h0, parseNumJ_none]

/-- C4 counterexample: the claim says invalid stripped forms degrade to
0 minor units; the string `"."` strips to itself, is not a valid
number, and produces NaN (`none`) minor units instead of 0. -/
theorem malformed_string_counterexample :
    (currency (JSInput.str ".") defaults).map Currency.intValue = Except.ok none
    ∧ (Except.ok none : Except String JNum) ≠ Except.ok (some (0 : ℚ)) := by
  constructor
  · show Except.ok (parseNumJ (stringToNum defaults.decimal ".") defaults true) = Except.ok none
    rw [show stringToNum defaults.decimal "." = none from by decide, parseNumJ_none]
  · intro h
    injection h with h
    exact Option.noConfusion h

/-- Witness for C4 at `"abc"` (stripped form empty, value 0) and `"-"`
(stripped form invalid, value NaN). -/
theorem malformed_string_tolerance_witness :
    ((currency (JSInput.str "abc") defaults).map Currency.intValue = Except.ok (some 0))
    ∧ ((currency (JSInput.str "-") defaults).map Currency.intValue = Except.ok none) :=
  ⟨(malformed_string_tolerance "abc" defaults).2.1 (by decide),
   (malformed_string_tolerance "-" defaults).2.2 (by decide) (by decide)⟩

/-- C5: the constructor fails (with the `Invalid Input` error) exactly
when `errorOnInvalid` is set and the input is of an unsupported type;
with `errorOnInvalid` unset the same unsupported input yields a value
of 0 minor units. -/
theorem invalid_input_policy :
    (∀ (value : JSInput) (opts : Settings),
        (currency value opts).isOk = false
          ↔ (opts.errorOnInvalid = true ∧ value = JSInput.other))
    ∧ ∀ opts : Settings, opts.errorOnInvalid = false →
        (currency JSInput.other opts).map Currency.intValue = Except.ok (some 0) := by
  constructor
  · intro value opts
    cases value with
    | num v => simp [currency, parse, Except.map, Except.isOk, Except.toBool]
    | str str => simp [currency, parse, Except.map, Except.isOk, Except.toBool]
    | cur c => simp [currency, parse, Except.map, Except.isOk, Except.toBool]
    | other =>
      by_cases h : opts.errorOnInvalid <;>
        simp [currency, parse, h, Except.map, Except.isOk, Except.toBool]
  · intro opts h
    have hp : parse JSInput.other opts true = Except.ok (parseValue JSInput.other opts true) := by
      simp [parse, h]
    show Except.map Currency.intValue
        (Except.map (fun v => ({ intValue := v, settings := resolveSettings opts } : Currency))
          (parse JSInput.other opts true)) = Except.ok (some 0)
    rw [hp]
    show Except.ok (parseNumJ (some 0) opts true) = _
    rw [parseNumJ_zero]

/-- Witness for C5: with `errorOnInvalid` unset, an unsupported input
constructs the zero value. -/
theorem invalid_input_policy_witness :
    (currency JSInput.other defaults).map Currency.intValue = Except.ok (some 0) :=
  invalid_input_policy.2 defaults rfl

/-- C6 (amended): `distribute(0)` silently skips the loop and returns
an empty array; no error is raised (the source has no failure path
here, so there is no fail-fast behavior to observe). -/
theorem distribute_zero_empty (c : Currency) : c.distribute 0 = [] := rfl

/-- C6 counterexample: at a concrete value, `distribute(0)` returns
`ok []` — a silently empty share list, not a fail-fast error. -/
theorem distribute_zero_counterexample :
    (currency (JSInput.num 100) defaults).map (fun c => c.distribute 0) = Except.ok []
    ∧ ((currency (JSInput.num 100) defaults).map (fun c => c.distribute 0)).isOk = true :=
  ⟨rfl, rfl⟩

lemma currencyNum_int (v : JNum) (s : Settings) : isIntOrNaN (currencyNum v s).intValue :=
  parseNumJ_int v s

lemma isIntOrNaN_parseValue (value : JSInput) (s : Settings) (hg : goodInput value) :
    isIntOrNaN (parseValue value s true) := by
  cases value with
  | cur c =>
    by_cases h : s.fromCents
    · simpa [parseValue, h] using hg
    · simp only [parseValue, h, Bool.false_eq_true, if_false]
      exact parseNumJ_int _ _
  | num q => exact parseNumJ_int _ _
  | str str => exact parseNumJ_int _ _
  | other => exact parseNumJ_int _ _

lemma distLoop_mem_int (s : Settings) (split : JNum) (prec : ℚ) (nonneg : Bool) (k : ℕ) :
    ∀ pennies : JNum, ∀ c' ∈ distLoop s split prec nonneg k pennies, isIntOrNaN c'.intValue := by
  induction k with
  | zero => intro pennies c' hc'; simp [distLoop] at hc'
  | succ m ih =>
    intro pennies c' hc'
    simp only [distLoop, List.mem_cons] at hc'
    rcases hc' with h | h
    · subst h
      split_ifs <;> exact currencyNum_int _ _
    · exact ih _ c' h

/-- C7 (amended): `intValue` is always either an integer or a
non-finite double (NaN/Infinity) — the constructor and every operation
end in `Math.round`, which yields an integer on every finite value, but
malformed strings and division by zero produce non-finite minor units,
not integers. -/
theorem integer_minor_units :
    (∀ (value : JSInput) (opts : Settings) (c : Currency),
        goodInput value → currency value opts = Except.ok c → isIntOrNaN c.intValue)
    ∧ (∀ (c : Currency) (x : JSInput) (c' : Currency),
        Currency.add c x = Except.ok c' → isIntOrNaN c'.intValue)
    ∧ (∀ (c : Currency) (x : JSInput) (c' : Currency),
        Currency.subtract c x = Except.ok c' → isIntOrNaN c'.intValue)
    ∧ (∀ (c : Currency) (q : ℚ), isIntOrNaN (Currency.multiply c q).intValue)
    ∧ (∀ (c : Currency) (x : JSInput) (c' : Currency),
        Currency.divide c x = Except.ok c' → isIntOrNaN c'.intValue)
    ∧ (∀ (c : Currency) (n : ℕ), ∀ c' ∈ Currency.distribute c n, isIntOrNaN c'.intValue) := by
  refine ⟨?_, ?_, ?_, ?_, ?_, ?_⟩
  · intro value opts c hg h
    cases value with
    | other =>
      by_cases herr : opts.errorOnInvalid
      · simp [currency, parse, herr, Except.map] at h
      · simp only [currency, parse, herr, Bool.false_eq_true, if_false, Except.map] at h
        cases h
        exact isIntOrNaN_parseValue JSInput.other opts trivial
    | num v =>
      simp only [currency, parse, Except.map] at h
      cases h
      exact isIntOrNaN_parseValue (JSInput.num v) opts trivial
    | str str =>
      simp only [currency, parse, Except.map] at h
      cases h
      exact isIntOrNaN_parseValue (JSInput.str str) opts trivial
    | cur c0 =>
      simp only [currency, parse, Except.map] at h
      cases h
      exact isIntOrNaN_parseValue (JSInput.cur c0) opts hg
  · intro c x c' h
    unfold Currency.add at h
    cases hp : parse x c.settings true with
    | error e => rw [hp] at h; exact absurd h (by simp [Except.map])
    | ok p =>
      rw [hp] at h
      simp only [Except.map] at h
      cases h
      exact currencyNum_int _ _
  · intro c x c' h
    unfold Currency.subtract at h
    cases hp : parse x c.settings true with
    | error e => rw [hp] at h; exact absurd h (by simp [Except.map])
    | ok p =>
      rw [hp] at h
      simp only [Except.map] at h
      cases h
      exact currencyNum_int _ _
  · intro c q
    exact currencyNum_int _ _
  · intro c x c' h
    unfold Currency.divide at h
    cases hp : parse x c.settings false with
    | error e => rw [hp] at h; exact absurd h (by simp [Except.map])
    | ok p =>
      rw [hp] at h
      simp only [Except.map] at h
      cases h
      exact currencyNum_int _ _
  · intro c n c' h
    exact distLoop_mem_int _ _ _ _ n _ c' h

/-- C7 counterexample: the string `"1-2"` is a supported input (a
string) whose stripped form survives as `"1-2"`, an invalid number: the
constructed `intValue` is NaN, not an integer. -/
theorem integer_minor_units_counterexample :
    (currency (JSInput.str "1-2") defaults).map Currency.intValue = Except.ok none := by
  show Except.ok (parseNumJ (stringToNum defaults.decimal "1-2") defaults true) = Except.ok none
  rw [show stringToNum defaults.decimal "1-2" = none from by decide, parseNumJ_none]

/-- Witness for C7 at the number 5 under defaults. -/
theorem integer_minor_units_witness :
    isIntOrNaN (currencyNum (some 5) defaults).intValue :=
  integer_minor_units.1 (JSInput.num 5) defaults (currencyNum (some 5) defaults) trivial rfl

/-- The alternate (South-Asian) grouping configuration. -/
def vedicSettings : Settings := { defaults with useVedic := true }

lemma toString_1234567 (s : Settings) (hprec : s.precision = 2) (hinc : s.increment = 1 / 100) :
    Currency.toString ⟨some 123456700, s⟩ = "1234567.00" := by
  simp only [Currency.toString, hprec, hinc]
  rw [show jDivQ (some (123456700 : ℚ)) (pow 2) = some 1234567 from by
    norm_num [jDivQ, jDiv, pow]]
  rw [show rounding (some (1234567 : ℚ)) (1 / 100) = some 1234567 from by
    norm_num [rounding, jDivQ, jDiv, jRound, jMul, jsRound]]
  show toFixedStr 2 1234567 = _
  rw [toFixedStr_eval 2 1234567 123456700 (by norm_num) (by norm_num [fixRound])]
  decide


/-- C9: what `format()` actually produces for 1234567 under the default
and the alternate-grouping configurations.  The grouping itself matches
the claim ("1,234,567" / "12,34,567"), but the claimed `".00"` decimal
tail is absent: `format` interpolates the instance with `('' + c)`,
ECMAScript ToPrimitive prefers the port's added `valueOf` (the number
`Number(c.toString())`), and converting `1234567.00` through a number
drops the fractional digits, so the cents part of the pattern is
omitted entirely. -/
theorem format_digit_grouping_actual :
    (currency (JSInput.num 1234567) defaults).map Currency.format = Except.ok "$1,234,567"
    ∧ (currency (JSInput.num 1234567) vedicSettings).map Currency.format
        = Except.ok "$12,34,567"
    ∧ ("$1,234,567" : String) ≠ "$1,234,567.00" := by
  refine ⟨?_, ?_, by decide⟩
  · have h1 : parseValue (JSInput.num 1234567) defaults true = some 123456700 := by
      norm_num [parseValue, parseNumJ, defaults, jMul, jToFixed4, jRound, pow, toFixedVal,
        fixRound, jsRound]
    rw [currency_num_ok, h1]
    show Except.ok (Currency.format ⟨some 123456700, resolveSettings defaults⟩) = _
    have h2 : Currency.toString ⟨some 123456700, resolveSettings defaults⟩ = "1234567.00" :=
      toString_1234567 _ rfl (by norm_num [resolveSettings, defaults, pow])
    have h5 : Currency.coerceString ⟨some 123456700, resolveSettings defaults⟩ = "1234567" := by
      rw [Currency.coerceString, Currency.valueOf, h2]
      rw [show strToNumber "1234567.00" = some 1234567 from by
        simp +decide [strToNumber, parseUnsignedDec, digitsToNat]]
      show numToStringQ 1234567 = _
      simp +decide [numToStringQ, decDigits, primeMult]
    have h6 : jGe0 (Currency.value ⟨some 123456700, resolveSettings defaults⟩) = true := by
      norm_num [Currency.value, jGe0, pow, resolveSettings, defaults]
    simp only [Currency.format, formatFn, h5, h6]
    decide
  · have h1 : parseValue (JSInput.num 1234567) vedicSettings true = some 123456700 := by
      norm_num [parseValue, parseNumJ, vedicSettings, defaults, jMul, jToFixed4, jRound, pow,
        toFixedVal, fixRound, jsRound]
    rw [currency_num_ok, h1]
    show Except.ok (Currency.format ⟨some 123456700, resolveSettings vedicSettings⟩) = _
    have h2 : Currency.toString ⟨some 123456700, resolveSettings vedicSettings⟩
        = "1234567.00" :=
      toString_1234567 _ rfl (by norm_num [resolveSettings, vedicSettings, defaults, pow])
    have h5 : Currency.coerceString ⟨some 123456700, resolveSettings vedicSettings⟩
        = "1234567" := by
      rw [Currency.coerceString, Currency.valueOf, h2]
      rw [show strToNumber "1234567.00" = some 1234567 from by
        simp +decide [strToNumber, parseUnsignedDec, digitsToNat]]
      show numToStringQ 1234567 = _
      simp +decide [numToStringQ, decDigits, primeMult]
    have h6 : jGe0 (Currency.value ⟨some 123456700, resolveSettings vedicSettings⟩) = true := by
      norm_num [Currency.value, jGe0, pow, resolveSettings, vedicSettings, defaults]
    simp only [Currency.format, formatFn, h5, h6]
    decide

lemma toInt32_eq_self (z : ℤ) (h1 : -(2 ^ 31) ≤ z) (h2 : z < 2 ^ 31) : toInt32 z = z := by
  simp only [toInt32]
  split_ifs <;> omega

lemma jsTrunc_intCast (z : ℤ) : jsTrunc ((z : ℤ) : ℚ) = z := by
  unfold jsTrunc
  by_cases h : 0 ≤ z
  · rw [if_pos (by exact_mod_cast h), Int.floor_intCast]
  · rw [if_neg (by exact_mod_cast h), Int.ceil_intCast]

lemma jsTrunc_intCast_div_nat (z : ℤ) (m : ℕ) (hm : 0 < m) :
    jsTrunc ((z : ℚ) / (m : ℚ)) = specTruncDiv z (m : ℤ) := by
  have hmq : (0 : ℚ) < (m : ℚ) := by exact_mod_cast hm
  unfold jsTrunc specTruncDiv
  by_cases h : 0 ≤ z
  · rw [if_pos (div_nonneg (by exact_mod_cast h) hmq.le), if_pos h, floor_intCast_div_nat]
  · have hzq : (z : ℚ) < 0 := by exact_mod_cast not_le.mp h
    rw [if_neg (not_le.mpr (div_neg_of_neg_of_pos hzq hmq)), if_neg h, ceil_intCast_div_nat]

lemma specRemainder_eq (z : ℤ) (m : ℕ) (_hm : 0 < m) :
    specRemainder z (m : ℤ) = (if 0 ≤ z then z % (m : ℤ) else -((-z) % (m : ℤ))) := by
  unfold specRemainder specTruncDiv
  have h1 := Int.ediv_add_emod z (m : ℤ)
  have h2 := Int.ediv_add_emod (-z) (m : ℤ)
  split_ifs <;> linarith

lemma specRemainder_bounds (z : ℤ) (m : ℕ) (hm : 0 < m) :
    -(m : ℤ) < specRemainder z (m : ℤ) ∧ specRemainder z (m : ℤ) < (m : ℤ) := by
  rw [specRemainder_eq z m hm]
  have hmz : (0 : ℤ) < (m : ℤ) := by exact_mod_cast hm
  have h1 := Int.emod_nonneg z (by omega : (m : ℤ) ≠ 0)
  have h2 := Int.emod_lt_of_pos z hmz
  have h3 := Int.emod_nonneg (-z) (by omega : (m : ℤ) ≠ 0)
  have h4 := Int.emod_lt_of_pos (-z) hmz
  split_ifs <;> omega

/-- The scale factor as a natural number. -/
lemma pow_eq_natCast (p : Nat) : pow p = ((10 ^ p : ℕ) : ℚ) := by
  unfold pow
  push_cast
  ring

/-- C10 (amended): `dollars()` is ECMAScript `ToInt32` of the truncated
(toward-zero) major-unit part — hence equal to that truncation exactly
when it lies in the signed 32-bit range — and `cents()` is `ToInt32` of
the sign-following remainder `minorUnits mod 10^precision`, which is
exact whenever `precision ≤ 9`. -/
theorem dollars_cents (c : Currency) (z : ℤ) (hc : c.intValue = some ((z : ℤ) : ℚ)) :
    (Currency.dollars c = toInt32 (specTruncDiv z ((10 : ℤ) ^ c.settings.precision))
      ∧ (-(2 ^ 31) ≤ specTruncDiv z ((10 : ℤ) ^ c.settings.precision) →
          specTruncDiv z ((10 : ℤ) ^ c.settings.precision) < 2 ^ 31 →
          Currency.dollars c = specTruncDiv z ((10 : ℤ) ^ c.settings.precision)))
    ∧ (Currency.cents c = toInt32 (specRemainder z ((10 : ℤ) ^ c.settings.precision))
      ∧ (c.settings.precision ≤ 9 →
          Currency.cents c = specRemainder z ((10 : ℤ) ^ c.settings.precision))) := by
  have hmnat : 0 < 10 ^ c.settings.precision := Nat.pos_pow_of_pos _ (by norm_num)
  have hmcast : ((10 : ℤ) ^ c.settings.precision) = ((10 ^ c.settings.precision : ℕ) : ℤ) := by
    push_cast; ring
  have hdollars : Currency.dollars c
      = toInt32 (specTruncDiv z ((10 : ℤ) ^ c.settings.precision)) := by
    unfold Currency.dollars jToInt32 Currency.value
    rw [hc, Option.map_some']
    show toInt32 (jsTrunc ((z : ℚ) / pow c.settings.precision)) = _
    rw [pow_eq_natCast, jsTrunc_intCast_div_nat z _ hmnat, hmcast]
  have hrem : jRem c.intValue (pow c.settings.precision)
      = some ((specRemainder z ((10 : ℤ) ^ c.settings.precision) : ℤ) : ℚ) := by
    rw [hc]
    show (if pow c.settings.precision = 0 then none
      else some ((z : ℚ) - pow c.settings.precision *
        ((jsTrunc ((z : ℚ) / pow c.settings.precision) : ℤ) : ℚ)))
      = some ((specRemainder z ((10 : ℤ) ^ c.settings.precision) : ℤ) : ℚ)
    rw [if_neg (pow_ne_zero' c.settings.precision)]
    rw [pow_eq_natCast, jsTrunc_intCast_div_nat z _ hmnat]
    congr 1
    unfold specRemainder
    rw [hmcast]
    push_cast
    ring
  have hcents : Currency.cents c
      = toInt32 (specRemainder z ((10 : ℤ) ^ c.settings.precision)) := by
    unfold Currency.cents
    rw [hrem]
    show toInt32 (jsTrunc ((specRemainder z ((10 : ℤ) ^ c.settings.precision) : ℤ) : ℚ)) = _
    rw [jsTrunc_intCast]
  refine ⟨⟨hdollars, fun hlo hhi => ?_⟩, hcents, fun hp => ?_⟩
  · rw [hdollars, toInt32_eq_self _ hlo hhi]
  · have hb := specRemainder_bounds z (10 ^ c.settings.precision) hmnat
    rw [← hmcast] at hb
    have hple : ((10 : ℤ) ^ c.settings.precision) ≤ 10 ^ 9 :=
      pow_le_pow_right₀ (by norm_num) hp
    rw [hcents, toInt32_eq_self _ (by omega) (by omega)]

/-- C10 counterexample: `~~` is ToInt32, so `dollars()` wraps at 2^32.
For $2147483648.00 (one above the 32-bit range), the truncated
major-unit part is 2147483648 but `dollars()` returns -2147483648. -/
theorem dollars_toInt32_counterexample :
    (currency (JSInput.num 2147483648) defaults).map Currency.dollars
        = Except.ok (-2147483648)
    ∧ jsTrunc ((214748364800 : ℚ) / pow defaults.precision) = 2147483648 := by
  constructor
  · have h1 : parseValue (JSInput.num 2147483648) defaults true = some 214748364800 := by
      norm_num [parseValue, parseNumJ, defaults, jMul, jToFixed4, jRound, pow, toFixedVal,
        fixRound, jsRound]
    rw [currency_num_ok, h1]
    show Except.ok (Currency.dollars ⟨some 214748364800, resolveSettings defaults⟩) = _
    have h2 : Currency.value ⟨some (214748364800 : ℚ), resolveSettings defaults⟩
        = some 2147483648 := by
      norm_num [Currency.value, resolveSettings, defaults, pow]
    unfold Currency.dollars
    rw [h2]
    show Except.ok (toInt32 (jsTrunc (2147483648 : ℚ))) = _
    rw [show jsTrunc (2147483648 : ℚ) = 2147483648 from by norm_num [jsTrunc]]
    rw [show toInt32 2147483648 = -2147483648 from by decide]
  · norm_num [jsTrunc, defaults, pow]

/-- Witness for C10 at -123 minor units under defaults: dollars -1,
cents -23 (sign-following). -/
theorem dollars_cents_witness :
    Currency.dollars ⟨some ((-123 : ℤ) : ℚ), defaults⟩
        = specTruncDiv (-123) ((10 : ℤ) ^ defaults.precision)
    ∧ Currency.cents ⟨some ((-123 : ℤ) : ℚ), defaults⟩
        = specRemainder (-123) ((10 : ℤ) ^ defaults.precision) :=
  ⟨(dollars_cents ⟨some ((-123 : ℤ) : ℚ), defaults⟩ (-123) rfl).1.2 (by decide) (by decide),
   (dollars_cents ⟨some ((-123 : ℤ) : ℚ), defaults⟩ (-123) rfl).2.2 (by decide)⟩
